import Mathlib

/-!
Verification of the hlnode-websocket subscription broadcast engine.

The Go source is embedded shallowly: Go maps become association lists,
goroutine-local loop bodies become pure step functions, JSON payload
bytes become an explicit JSON value type, and the crypto-random
subscription-id generator becomes an explicit id argument (modelling the
random draw as a nondeterministic input).
-/

namespace Hlnode

/-! ## Association lists, modelling Go maps -/

namespace AList

/-- Go map read `m[k]`: the value stored at key `k`, if any. -/
def lookup {α : Type} (k : String) : List (String × α) → Option α
  | [] => none
  | (k₂, v) :: rest => if k₂ = k then some v else lookup k rest

/-- Go map delete: removes every binding for `k`. -/
def erase {α : Type} (k : String) (l : List (String × α)) : List (String × α) :=
  l.filter (fun p => p.1 != k)

/-- Go map write `m[k] = v`: binds `k` to `v`, replacing any prior binding. -/
def insert {α : Type} (k : String) (v : α) (l : List (String × α)) : List (String × α) :=
  (k, v) :: erase k l

@[simp]
theorem lookup_nil {α : Type} (k : String) : lookup (α := α) k [] = none := rfl

theorem lookup_cons {α : Type} (k k₂ : String) (v : α) (rest : List (String × α)) :
    lookup k ((k₂, v) :: rest) = if k₂ = k then some v else lookup k rest := rfl

theorem erase_cons {α : Type} (k k₂ : String) (v : α) (rest : List (String × α)) :
    erase k ((k₂, v) :: rest) =
      if k₂ = k then erase k rest else (k₂, v) :: erase k rest := by
  by_cases h : k₂ = k <;> simp [erase, List.filter_cons, h]

@[simp]
theorem erase_nil {α : Type} (k : String) : erase (α := α) k [] = [] := rfl

@[simp]
theorem lookup_erase_self {α : Type} (k : String) (l : List (String × α)) :
    lookup k (erase k l) = none := by
  induction l with
  | nil => rfl
  | cons p rest ih =>
    obtain ⟨k₂, v⟩ := p
    rw [erase_cons]
    by_cases h : k₂ = k
    · rw [if_pos h]; exact ih
    · rw [if_neg h, lookup_cons, if_neg h]; exact ih

@[simp]
theorem lookup_erase_ne {α : Type} (k k₀ : String) (l : List (String × α)) (h : k₀ ≠ k) :
    lookup k₀ (erase k l) = lookup k₀ l := by
  induction l with
  | nil => rfl
  | cons p rest ih =>
    obtain ⟨k₂, v⟩ := p
    rw [erase_cons, lookup_cons]
    by_cases hk : k₂ = k
    · rw [if_pos hk, ih, if_neg (fun hh : k₂ = k₀ => h (hh.symm.trans hk))]
    · rw [if_neg hk, lookup_cons, ih]

@[simp]
theorem lookup_insert_self {α : Type} (k : String) (v : α) (l : List (String × α)) :
    lookup k (insert k v l) = some v := by
  rw [insert, lookup_cons, if_pos rfl]

@[simp]
theorem lookup_insert_ne {α : Type} (k k₀ : String) (v : α) (l : List (String × α))
    (h : k₀ ≠ k) : lookup k₀ (insert k v l) = lookup k₀ l := by
  rw [insert, lookup_cons, if_neg (fun hh : k = k₀ => h hh.symm), lookup_erase_ne _ _ _ h]

/-- If `k` has no binding then erasing `k` is a no-op. -/
theorem erase_of_lookup_none {α : Type} (k : String) (l : List (String × α))
    (h : lookup k l = none) : erase k l = l := by
  induction l with
  | nil => rfl
  | cons p rest ih =>
    obtain ⟨k₂, v⟩ := p
    rw [lookup_cons] at h
    by_cases hk : k₂ = k
    · rw [if_pos hk] at h; exact absurd h (by simp)
    · rw [if_neg hk] at h
      rw [erase_cons, if_neg hk, ih h]

@[simp]
theorem erase_erase {α : Type} (k : String) (l : List (String × α)) :
    erase k (erase k l) = erase k l :=
  erase_of_lookup_none k (erase k l) (lookup_erase_self k l)

/-- A pair in a list with no duplicate keys is the one `lookup` finds. -/
theorem lookup_of_mem_of_nodup {α : Type} {k : String} {v : α} {l : List (String × α)}
    (hmem : (k, v) ∈ l) (hnd : (l.map Prod.fst).Nodup) : lookup k l = some v := by
  induction l with
  | nil => cases hmem
  | cons p rest ih =>
    obtain ⟨k₂, v₂⟩ := p
    rw [List.map_cons, List.nodup_cons] at hnd
    rcases List.mem_cons.mp hmem with heq | hmem₂
    · obtain ⟨hk, hv⟩ := Prod.mk.injEq _ _ _ _ ▸ heq.symm
      rw [lookup_cons, if_pos hk, hv]
    · have hk₂ : k₂ ≠ k := by
        intro hh
        exact hnd.1 (hh ▸ List.mem_map.mpr ⟨(k, v), hmem₂, rfl⟩)
      rw [lookup_cons, if_neg hk₂]
      exact ih hmem₂ hnd.2

theorem keys_nodup_erase {α : Type} (k : String) (l : List (String × α))
    (h : (l.map Prod.fst).Nodup) : ((erase k l).map Prod.fst).Nodup := by
  induction l with
  | nil => exact List.nodup_nil
  | cons p rest ih =>
    obtain ⟨k₂, v⟩ := p
    rw [List.map_cons, List.nodup_cons] at h
    rw [erase_cons]
    by_cases hk : k₂ = k
    · rw [if_pos hk]; exact ih h.2
    · rw [if_neg hk, List.map_cons, List.nodup_cons]
      refine ⟨fun hmem => ?_, ih h.2⟩
      rcases List.mem_map.mp hmem with ⟨q, hq, hq₂⟩
      exact h.1 (List.mem_map.mpr ⟨q, List.mem_of_mem_filter hq, hq₂⟩)

theorem keys_nodup_insert {α : Type} (k : String) (v : α) (l : List (String × α))
    (h : (l.map Prod.fst).Nodup) : ((insert k v l).map Prod.fst).Nodup := by
  rw [insert, List.map_cons, List.nodup_cons]
  refine ⟨fun hmem => ?_, keys_nodup_erase k l h⟩
  rcases List.mem_map.mp hmem with ⟨⟨k₂, v₂⟩, hq, hq₂⟩
  rcases List.mem_filter.mp hq with ⟨_, hne⟩
  rw [hq₂] at hne
  simp at hne

/-- Members of an erased list are members of the original with a different key. -/
theorem mem_erase_iff {α : Type} {k : String} {p : String × α} {l : List (String × α)} :
    p ∈ erase k l ↔ p ∈ l ∧ p.1 ≠ k := by
  simp [erase, List.mem_filter]

end AList

/-! ## Data model (internal/rpc/models.go) -/

/-- The `rpc.Log` struct: an Ethereum log entry. -/
structure Log where
  address : String := ""
  topics : List String := []
  data : String := ""
  blockNumber : String := ""
  blockHash : String := ""
  transactionHash : String := ""
  transactionIndex : String := ""
  logIndex : String := ""
  removed : Bool := false
  blockTimestamp : String := ""
  deriving DecidableEq, Repr

/-- The `rpc.FullBlockHeader` struct: a complete block header. -/
structure FullBlockHeader where
  number : String := ""
  hash : String := ""
  parentHash : String := ""
  nonce : String := ""
  sha3Uncles : String := ""
  logsBloom : String := ""
  transactionsRoot : String := ""
  stateRoot : String := ""
  receiptsRoot : String := ""
  miner : String := ""
  difficulty : String := ""
  totalDifficulty : String := ""
  extraData : String := ""
  size : String := ""
  gasLimit : String := ""
  gasUsed : String := ""
  timestamp : String := ""
  baseFeePerGas : String := ""
  mixHash : String := ""
  withdrawalsRoot : String := ""
  blobGasUsed : String := ""
  excessBlobGas : String := ""
  parentBeaconBlockRoot : String := ""
  deriving DecidableEq, Repr

/-- The `rpc.GasPriceInfo` struct. -/
structure GasPriceInfo where
  gasPrice : String := ""
  bigBlockGasPrice : String := ""
  blockNumber : String := ""
  deriving DecidableEq, Repr

/-- The `rpc.TransactionReceipt` struct. -/
structure TransactionReceipt where
  blockHash : String := ""
  blockNumber : String := ""
  contractAddress : String := ""
  cumulativeGasUsed : String := ""
  effectiveGasPrice : String := ""
  from_ : String := ""
  gasUsed : String := ""
  logs : List Log := []
  logsBloom : String := ""
  status : String := ""
  to_ : String := ""
  transactionHash : String := ""
  transactionIndex : String := ""
  type : String := ""
  deriving DecidableEq, Repr

/-- The `rpc.BlockReceipts` struct. -/
structure BlockReceipts where
  blockNumber : String := ""
  blockHash : String := ""
  receipts : List TransactionReceipt := []
  deriving DecidableEq, Repr

/-- The `rpc.SyncStatus` struct (matches the eth_syncing response shape). -/
structure SyncStatus where
  syncing : Bool := false
  startingBlock : String := ""
  currentBlock : String := ""
  highestBlock : String := ""
  healedBytecodes : String := ""
  healedTrienodes : String := ""
  healingBytecode : String := ""
  healingTrienodes : String := ""
  syncedAccounts : String := ""
  syncedBytecodes : String := ""
  syncedStorage : String := ""
  deriving DecidableEq, Repr

/-! ## Subscription types and the log filter (internal/subscription/manager.go) -/

/-- Go `type SubscriptionType string`. -/
abbrev SubscriptionType := String

def SubTypeNewHeads : SubscriptionType := "newHeads"
def SubTypeLogs : SubscriptionType := "logs"
def SubTypeNewPendingTransactions : SubscriptionType := "newPendingTransactions"
def SubTypeSyncing : SubscriptionType := "syncing"
def SubTypeGasPrice : SubscriptionType := "gasPrice"
def SubTypeBlockReceipts : SubscriptionType := "blockReceipts"

/-- The `subscription.LogFilter` struct: parsed filter params of a logs
subscription. A topic position holding `[]` models a Go `nil`/empty slice
(wildcard). -/
structure LogFilter where
  address : List String := []
  topics : List (List String) := []
  deriving DecidableEq, Repr

/-- Go `strings.ToLower` on an address (`normalizeAddress`). -/
def normalizeAddress (addr : String) : String := addr.toLower

/-- Go `strings.ToLower` on a topic hash (`normalizeTopic`). -/
def normalizeTopic (topic : String) : String := topic.toLower

/-- The topics loop of `MatchesLogFilter`: walks the filter positions and the
log topics index-aligned. An empty value set at a position is the wildcard and
is skipped; a non-empty set at a position beyond the log topic count fails;
otherwise the lowercased log topic must be a member of the set. -/
def matchTopics : List (List String) → List String → Bool
  | [], _ => true
  | tf :: rest, [] => if tf.isEmpty then matchTopics rest [] else false
  | tf :: rest, lt :: lts =>
    if tf.isEmpty then matchTopics rest lts
    else if tf.contains lt.toLower then matchTopics rest lts
    else false

/-- The `subscription.MatchesLogFilter` function. A `none` filter is the Go
nil pointer. -/
def matchesLogFilter (logEntry : Log) (filter : Option LogFilter) : Bool :=
  match filter with
  | none => true
  | some f =>
    (f.address.isEmpty || f.address.contains logEntry.address.toLower)
    && matchTopics f.topics logEntry.topics

/-- Characterization of the topics loop. -/
theorem matchTopics_iff (ft : List (List String)) (lt : List String) :
    matchTopics ft lt = true ↔
      ∀ i tf, ft.get? i = some tf → tf ≠ [] →
        ∃ t, lt.get? i = some t ∧ t.toLower ∈ tf := by
  induction ft generalizing lt with
  | nil => simp [matchTopics]
  | cons tf rest ih =>
    cases lt with
    | nil =>
      by_cases h : tf.isEmpty
      · rw [matchTopics, if_pos h]
        rw [List.isEmpty_iff] at h
        subst h
        rw [ih []]
        constructor
        · intro hall i tfv hget hne
          cases i with
          | zero => exact absurd (Option.some.injEq .. ▸ hget).symm hne
          | succ n => exact hall n tfv hget hne
        · intro hall i tfv hget hne
          exact hall (i + 1) tfv hget hne
      · rw [matchTopics, if_neg h]
        rw [List.isEmpty_iff] at h
        constructor
        · intro hfalse; cases hfalse
        · intro hall
          rcases hall 0 tf rfl h with ⟨t, hget, _⟩
          cases hget
    | cons lthd lttl =>
      by_cases h : tf.isEmpty
      · rw [matchTopics, if_pos h]
        rw [List.isEmpty_iff] at h
        subst h
        rw [ih lttl]
        constructor
        · intro hall i tfv hget hne
          cases i with
          | zero => exact absurd (Option.some.injEq .. ▸ hget).symm hne
          | succ n =>
            rcases hall n tfv hget hne with ⟨t, ht, htl⟩
            exact ⟨t, ht, htl⟩
        · intro hall i tfv hget hne
          rcases hall (i + 1) tfv hget hne with ⟨t, ht, htl⟩
          exact ⟨t, ht, htl⟩
      · rw [matchTopics, if_neg h]
        by_cases hc : tf.contains lthd.toLower
        · rw [if_pos hc, ih lttl]
          constructor
          · intro hall i tfv hget hne
            cases i with
            | zero =>
              refine ⟨lthd, rfl, ?_⟩
              have := (Option.some.injEq .. ▸ hget)
              rw [← this]
              exact (List.elem_iff).mp hc
            | succ n =>
              rcases hall n tfv hget hne with ⟨t, ht, htl⟩
              exact ⟨t, ht, htl⟩
          · intro hall i tfv hget hne
            rcases hall (i + 1) tfv hget hne with ⟨t, ht, htl⟩
            exact ⟨t, ht, htl⟩
        · rw [if_neg hc]
          rw [List.isEmpty_iff] at h
          constructor
          · intro hfalse; cases hfalse
          · intro hall
            rcases hall 0 tf rfl h with ⟨t, hget, hmem⟩
            have ht : t = lthd := (Option.some.injEq .. ▸ hget).symm
            subst ht
            exact absurd ((List.elem_iff).mpr hmem) hc

/-! ## JSON values and raw messages

`json.RawMessage` fields hold raw bytes. A raw message is either absent
(`nil`, length zero), bytes that are not valid JSON, or a JSON value. -/

/-- A JSON value, the result of parsing valid JSON bytes. -/
inductive Jsonv where
  | null
  | bool (b : Bool)
  | num (n : Int)
  | str (s : String)
  | arr (elems : List Jsonv)
  | obj (fields : List (String × Jsonv))

/-- Go `json.RawMessage` bytes as seen by the subscription layer. -/
inductive RawMessage where
  | empty
  | malformed (bytes : String)
  | json (v : Jsonv)

/-! ## Subscription registry (internal/subscription/manager.go) -/

/-- The `subscription.Subscription` struct. -/
structure Subscription where
  id : String
  type : SubscriptionType
  params : RawMessage
  clientID : String

/-- The `subscription.Manager` struct: the subscription map and the
client-index map (the `mu` lock is the serialization of calls and has no
data content). -/
structure Manager where
  subscriptions : List (String × Subscription) := []
  clientSubs : List (String × List String) := []

/-- The `subscription.NewManager` constructor: both maps empty. -/
def Manager.new : Manager := {}

/-- The `Manager.Subscribe` method. The crypto-random 16-byte id produced by
`generateSubscriptionID` is passed in as `subID` (the random draw is an
input of the model). Returns the Go `(string, error)` pair (the error is
always `none` in the source) and the updated manager. -/
def Manager.subscribe (m : Manager) (clientID : String) (subType : SubscriptionType)
    (params : RawMessage) (subID : String) : (String × Option String) × Manager :=
  let sub : Subscription :=
    { id := subID, type := subType, params := params, clientID := clientID }
  ((subID, none),
    { subscriptions := AList.insert subID sub m.subscriptions,
      clientSubs :=
        AList.insert clientID
          (((AList.lookup clientID m.clientSubs).getD []) ++ [subID]) m.clientSubs })

/-- Removing the first occurrence of `subID`, as the `Unsubscribe` slice loop
(`append` of the two slice halves followed by `break`) does. -/
def removeFirst (subID : String) : List String → List String
  | [] => []
  | id :: rest => if id = subID then rest else id :: removeFirst subID rest

/-- The `Manager.Unsubscribe` method: succeeds only when the subscription
exists and is owned by `clientID`. The client-index list is rewritten only
when the id is found in it, mirroring the conditional slice store. -/
def Manager.unsubscribe (m : Manager) (clientID subID : String) : Bool × Manager :=
  match AList.lookup subID m.subscriptions with
  | none => (false, m)
  | some sub =>
    if sub.clientID ≠ clientID then (false, m)
    else
      let subs := (AList.lookup clientID m.clientSubs).getD []
      let clientSubs₂ :=
        if subID ∈ subs then AList.insert clientID (removeFirst subID subs) m.clientSubs
        else m.clientSubs
      (true, { subscriptions := AList.erase subID m.subscriptions, clientSubs := clientSubs₂ })

/-- The deletion loop of `UnsubscribeAll`: for each listed id, if it is still
present in the subscription map, delete it. -/
def removeIds (subsMap : List (String × Subscription)) (ids : List String) :
    List (String × Subscription) :=
  ids.foldl (fun acc subID =>
    match AList.lookup subID acc with
    | some _ => AList.erase subID acc
    | none => acc) subsMap

/-- The `Manager.UnsubscribeAll` method: deletes every subscription listed
under the client, then deletes the client-index entry. -/
def Manager.unsubscribeAll (m : Manager) (clientID : String) : Manager :=
  let subs := (AList.lookup clientID m.clientSubs).getD []
  { subscriptions := removeIds m.subscriptions subs,
    clientSubs := AList.erase clientID m.clientSubs }

/-- The `Manager.GetSubscriptionsByType` method: all stored subscriptions of
the given type (the Go map iteration order is arbitrary; the model uses the
list order of the association list). -/
def Manager.getSubscriptionsByType (m : Manager) (subType : SubscriptionType) :
    List Subscription :=
  (m.subscriptions.map Prod.snd).filter (fun sub => sub.type = subType)

/-- The `Manager.GetClientSubscriptions` method: a copy of the client's
subscription-id list, with `nil` mapped to the empty list. -/
def Manager.getClientSubscriptions (m : Manager) (clientID : String) : List String :=
  (AList.lookup clientID m.clientSubs).getD []

/-! ## Claim C1 -/

/-- Claim C1: `MatchesLogFilter(log, filter)` returns true if and only if the
filter is nil, or (a) the address set is empty or contains the lowercased log
address, and (b) every filter topic position with a non-empty value set is
matched by the lowercased log topic at the same index (wildcard positions are
skipped, and a non-wildcard position at or beyond the log topic count forces a
non-match). -/
theorem C1_matchesLogFilter_iff (logEntry : Log) (filter : Option LogFilter) :
    matchesLogFilter logEntry filter = true ↔
      (filter = none ∨ ∃ f, filter = some f ∧
        (f.address = [] ∨ logEntry.address.toLower ∈ f.address) ∧
        (∀ i tf, f.topics.get? i = some tf → tf ≠ [] →
          ∃ t, logEntry.topics.get? i = some t ∧ t.toLower ∈ tf)) := by
  cases filter with
  | none => simp [matchesLogFilter]
  | some f =>
    rw [matchesLogFilter]
    simp only [Option.some.injEq, reduceCtorEq, false_or]
    rw [Bool.and_eq_true, Bool.or_eq_true, matchTopics_iff]
    constructor
    · rintro ⟨haddr, htop⟩
      refine ⟨f, rfl, ?_, htop⟩
      rcases haddr with he | hc
      · exact Or.inl (List.isEmpty_iff.mp he)
      · exact Or.inr (List.elem_iff.mp hc)
    · rintro ⟨f₂, hf, haddr, htop⟩
      obtain rfl : f₂ = f := hf.symm ▸ rfl
      refine ⟨?_, htop⟩
      rcases haddr with he | hc
      · exact Or.inl (List.isEmpty_iff.mpr he)
      · exact Or.inr (List.elem_iff.mpr hc)

/-! ## Claim C2 -/

/-- Claim C2: `Unsubscribe(A, subId)` returns true exactly when the
subscription exists and is owned by `A`; for a subscription owned by a
different client `B`, it returns false, leaves the whole registry state
unchanged, and leaves `B`'s subscription present. -/
theorem C2_unsubscribe_owner_only (m : Manager) (A B subID : String) (hAB : A ≠ B) :
    ((m.unsubscribe A subID).1 = true ↔
      ∃ sub, AList.lookup subID m.subscriptions = some sub ∧ sub.clientID = A)
    ∧ (∀ sub, AList.lookup subID m.subscriptions = some sub → sub.clientID = B →
        (m.unsubscribe A subID).1 = false ∧ (m.unsubscribe A subID).2 = m ∧
        AList.lookup subID (m.unsubscribe A subID).2.subscriptions = some sub) := by
  constructor
  · rw [Manager.unsubscribe]
    cases hl : AList.lookup subID m.subscriptions with
    | none =>
      simp only [Option.some.injEq]
      constructor
      · intro h; cases h
      · rintro ⟨sub, hsub, _⟩; cases hsub
    | some sub =>
      simp only
      by_cases howner : sub.clientID ≠ A
      · rw [if_pos howner]
        constructor
        · intro h; cases h
        · rintro ⟨sub₂, hsub₂, hcl⟩
          exact absurd ((Option.some.injEq _ _ ▸ hsub₂) ▸ hcl) howner
      · rw [if_neg howner]
        exact ⟨fun _ => ⟨sub, rfl, not_not.mp howner⟩, fun _ => rfl⟩
  · intro sub hsub hB
    have howner : sub.clientID ≠ A := fun h => hAB ((hB ▸ h).symm)
    have hres : m.unsubscribe A subID = (false, m) := by
      simp only [Manager.unsubscribe, hsub]
      rw [if_pos howner]
    rw [hres]
    exact ⟨rfl, rfl, hsub⟩

/-- Witness for claim C2 at a concrete registry state. -/
theorem C2_unsubscribe_owner_only_witness :
    ("clientA" : String) ≠ "clientB"
    ∧ (let subB : Subscription :=
        { id := "0xsub", type := SubTypeNewHeads, params := .empty, clientID := "clientB" }
       let m : Manager :=
        { subscriptions := [("0xsub", subB)], clientSubs := [("clientB", ["0xsub"])] }
       (m.unsubscribe "clientA" "0xsub").1 = false
       ∧ (m.unsubscribe "clientA" "0xsub").2 = m
       ∧ AList.lookup "0xsub" (m.unsubscribe "clientA" "0xsub").2.subscriptions = some subB) := by
  refine ⟨by decide, ?_⟩
  have h := (C2_unsubscribe_owner_only
    { subscriptions :=
        [("0xsub", { id := "0xsub", type := SubTypeNewHeads, params := .empty,
                     clientID := "clientB" })],
      clientSubs := [("clientB", ["0xsub"])] }
    "clientA" "clientB" "0xsub" (by decide)).2
    { id := "0xsub", type := SubTypeNewHeads, params := .empty, clientID := "clientB" }
    rfl rfl
  exact h

/-! ## Registry consistency invariant (claims C6 and C7) -/

theorem mem_of_mem_removeFirst {a b : String} {l : List String}
    (h : a ∈ removeFirst b l) : a ∈ l := by
  induction l with
  | nil => cases h
  | cons x rest ih =>
    rw [removeFirst] at h
    by_cases hx : x = b
    · rw [if_pos hx] at h
      exact List.mem_cons_of_mem x h
    · rw [if_neg hx] at h
      rcases List.mem_cons.mp h with rfl | hmem
      · exact List.mem_cons_self a rest
      · exact List.mem_cons_of_mem x (ih hmem)

theorem mem_removeFirst_of_ne {a b : String} {l : List String}
    (hmem : a ∈ l) (hne : a ≠ b) : a ∈ removeFirst b l := by
  induction l with
  | nil => cases hmem
  | cons x rest ih =>
    rw [removeFirst]
    by_cases hx : x = b
    · rw [if_pos hx]
      rcases List.mem_cons.mp hmem with rfl | hmem₂
      · exact absurd hx hne
      · exact hmem₂
    · rw [if_neg hx]
      rcases List.mem_cons.mp hmem with rfl | hmem₂
      · exact List.mem_cons_self a _
      · exact List.mem_cons_of_mem x (ih hmem₂)

theorem nodup_removeFirst (b : String) {l : List String} (h : l.Nodup) :
    (removeFirst b l).Nodup := by
  induction l with
  | nil => exact List.nodup_nil
  | cons x rest ih =>
    rw [List.nodup_cons] at h
    rw [removeFirst]
    by_cases hx : x = b
    · rw [if_pos hx]; exact h.2
    · rw [if_neg hx, List.nodup_cons]
      exact ⟨fun hmem => h.1 (mem_of_mem_removeFirst hmem), ih h.2⟩

theorem not_mem_removeFirst_self {b : String} {l : List String} (h : l.Nodup) :
    b ∉ removeFirst b l := by
  induction l with
  | nil => exact List.not_mem_nil b
  | cons x rest ih =>
    rw [List.nodup_cons] at h
    rw [removeFirst]
    by_cases hx : x = b
    · rw [if_pos hx]
      exact hx ▸ h.1
    · rw [if_neg hx]
      intro hmem
      rcases List.mem_cons.mp hmem with heq | hmem₂
      · exact hx heq.symm
      · exact ih h.2 hmem₂

theorem mem_removeFirst_iff {a b : String} {l : List String} (h : l.Nodup) :
    a ∈ removeFirst b l ↔ a ∈ l ∧ a ≠ b := by
  constructor
  · intro hmem
    refine ⟨mem_of_mem_removeFirst hmem, fun heq => ?_⟩
    exact not_mem_removeFirst_self h (heq ▸ hmem)
  · rintro ⟨hmem, hne⟩
    exact mem_removeFirst_of_ne hmem hne

theorem lookup_removeIds (ids : List String) (subsMap : List (String × Subscription))
    (id : String) :
    AList.lookup id (removeIds subsMap ids) =
      if id ∈ ids then none else AList.lookup id subsMap := by
  induction ids generalizing subsMap with
  | nil => simp [removeIds]
  | cons i rest ih =>
    have hstep : removeIds subsMap (i :: rest) =
        removeIds (match AList.lookup i subsMap with
          | some _ => AList.erase i subsMap
          | none => subsMap) rest := by
      rw [removeIds, List.foldl_cons]; rfl
    rw [hstep, ih]
    by_cases hmem : id ∈ rest
    · rw [if_pos hmem, if_pos (List.mem_cons_of_mem i hmem)]
    · rw [if_neg hmem]
      by_cases hid : id = i
      · subst hid
        rw [if_pos (List.mem_cons_self id rest)]
        cases hl : AList.lookup id subsMap with
        | none => exact hl
        | some s => simp
      · rw [if_neg (fun hc => by
          rcases List.mem_cons.mp hc with heq | hm
          · exact hid heq
          · exact hmem hm)]
        cases hl : AList.lookup i subsMap with
        | none => rfl
        | some s => exact AList.lookup_erase_ne i id subsMap hid

theorem keys_nodup_removeIds (ids : List String) (subsMap : List (String × Subscription))
    (h : (subsMap.map Prod.fst).Nodup) : ((removeIds subsMap ids).map Prod.fst).Nodup := by
  induction ids generalizing subsMap with
  | nil => exact h
  | cons i rest ih =>
    have hstep : removeIds subsMap (i :: rest) =
        removeIds (match AList.lookup i subsMap with
          | some _ => AList.erase i subsMap
          | none => subsMap) rest := by
      rw [removeIds, List.foldl_cons]; rfl
    rw [hstep]
    cases hl : AList.lookup i subsMap with
    | none => simpa [hl] using ih subsMap h
    | some s => simpa [hl] using ih (AList.erase i subsMap) (AList.keys_nodup_erase i subsMap h)

/-- A subscription id is listed under client `c` in the client-index map. -/
def listedUnder (m : Manager) (c id : String) : Prop :=
  ∃ ids, AList.lookup c m.clientSubs = some ids ∧ id ∈ ids

/-- The subscription map holds `id` with owner `c`. -/
def ownedBy (m : Manager) (c id : String) : Prop :=
  ∃ s, AList.lookup id m.subscriptions = some s ∧ s.clientID = c

/-- The consistency property of claim C6: an id is listed under a client iff
the subscription map owns it to that client, and no id is listed under two
distinct clients. -/
def Consistent (m : Manager) : Prop :=
  (∀ c id, listedUnder m c id ↔ ownedBy m c id)
  ∧ ∀ c₁ c₂ id, listedUnder m c₁ id → listedUnder m c₂ id → c₁ = c₂

/-- The full inductive invariant: consistency plus no duplicate keys in the
subscription map and no duplicate ids inside any client's index list. -/
def RegistryInv (m : Manager) : Prop :=
  Consistent m
  ∧ (m.subscriptions.map Prod.fst).Nodup
  ∧ ∀ c ids, AList.lookup c m.clientSubs = some ids → ids.Nodup

theorem registryInv_new : RegistryInv Manager.new := by
  refine ⟨⟨fun c id => ?_, fun c₁ c₂ id h₁ h₂ => ?_⟩, List.nodup_nil, fun c ids h => ?_⟩
  · constructor
    · rintro ⟨ids, h, _⟩; cases h
    · rintro ⟨s, h, _⟩; cases h
  · rcases h₁ with ⟨ids, h, _⟩; cases h
  · cases h

/-- The uniqueness half of `Consistent` follows from the iff half. -/
theorem unique_owner_of_iff {m : Manager}
    (hiff : ∀ c id, listedUnder m c id ↔ ownedBy m c id) :
    ∀ c₁ c₂ id, listedUnder m c₁ id → listedUnder m c₂ id → c₁ = c₂ := by
  intro c₁ c₂ id h₁ h₂
  rcases (hiff c₁ id).mp h₁ with ⟨s₁, hs₁, ho₁⟩
  rcases (hiff c₂ id).mp h₂ with ⟨s₂, hs₂, ho₂⟩
  have hss : s₁ = s₂ := by rw [hs₁] at hs₂; exact Option.some.inj hs₂
  rw [← ho₁, ← ho₂, hss]

theorem registryInv_subscribe (m : Manager) (c : String) (t : SubscriptionType)
    (p : RawMessage) (sid : String) (hInv : RegistryInv m)
    (hfresh : AList.lookup sid m.subscriptions = none) :
    RegistryInv (m.subscribe c t p sid).2 := by
  obtain ⟨⟨hiff, _⟩, hkeys, hlists⟩ := hInv
  have hOld : ∀ id, id ∈ (AList.lookup c m.clientSubs).getD [] → ownedBy m c id := by
    intro id hid
    cases hcs : AList.lookup c m.clientSubs with
    | none => rw [hcs] at hid; cases hid
    | some ids =>
      rw [hcs] at hid
      exact (hiff c id).mp ⟨ids, hcs, hid⟩
  have hOldNe : ∀ id, id ∈ (AList.lookup c m.clientSubs).getD [] → id ≠ sid := by
    intro id hid heq
    rcases hOld id hid with ⟨s, hs, _⟩
    rw [heq, hfresh] at hs
    cases hs
  set old := (AList.lookup c m.clientSubs).getD [] with hold_def
  set sub : Subscription := { id := sid, type := t, params := p, clientID := c } with hsub_def
  have hm₂ : (m.subscribe c t p sid).2 =
      { subscriptions := AList.insert sid sub m.subscriptions,
        clientSubs := AList.insert c (old ++ [sid]) m.clientSubs } := rfl
  rw [hm₂]
  have hiff₂ : ∀ c₀ id,
      listedUnder { subscriptions := AList.insert sid sub m.subscriptions,
                    clientSubs := AList.insert c (old ++ [sid]) m.clientSubs } c₀ id ↔
      ownedBy { subscriptions := AList.insert sid sub m.subscriptions,
                clientSubs := AList.insert c (old ++ [sid]) m.clientSubs } c₀ id := by
    intro c₀ id
    simp only [listedUnder, ownedBy]
    by_cases hc₀ : c₀ = c
    · subst hc₀
      constructor
      · rintro ⟨ids₂, hlk, hin⟩
        rw [AList.lookup_insert_self] at hlk
        obtain rfl : old ++ [sid] = ids₂ := Option.some.inj hlk
        rcases List.mem_append.mp hin with hinold | hinsid
        · rcases hOld id hinold with ⟨s, hs, hsc⟩
          refine ⟨s, ?_, hsc⟩
          rw [AList.lookup_insert_ne sid id sub m.subscriptions (hOldNe id hinold)]
          exact hs
        · obtain rfl : id = sid := List.mem_singleton.mp hinsid
          exact ⟨sub, AList.lookup_insert_self _ _ _, rfl⟩
      · rintro ⟨s, hs, hsc⟩
        by_cases hid : id = sid
        · subst hid
          exact ⟨old ++ [id], AList.lookup_insert_self _ _ _,
            List.mem_append.mpr (Or.inr (List.mem_singleton.mpr rfl))⟩
        · rw [AList.lookup_insert_ne sid id sub m.subscriptions hid] at hs
          rcases (hiff c₀ id).mpr ⟨s, hs, hsc⟩ with ⟨ids, hcs, hin⟩
          refine ⟨old ++ [sid], AList.lookup_insert_self _ _ _, ?_⟩
          have : old = ids := by rw [hold_def, hcs]; rfl
          exact List.mem_append.mpr (Or.inl (this ▸ hin))
    · constructor
      · rintro ⟨ids₂, hlk, hin⟩
        rw [AList.lookup_insert_ne c c₀ (old ++ [sid]) m.clientSubs hc₀] at hlk
        rcases (hiff c₀ id).mp ⟨ids₂, hlk, hin⟩ with ⟨s, hs, hsc⟩
        have hid : id ≠ sid := by
          intro heq; rw [heq, hfresh] at hs; cases hs
        refine ⟨s, ?_, hsc⟩
        rw [AList.lookup_insert_ne sid id sub m.subscriptions hid]
        exact hs
      · rintro ⟨s, hs, hsc⟩
        by_cases hid : id = sid
        · subst hid
          rw [AList.lookup_insert_self] at hs
          obtain rfl : sub = s := Option.some.inj hs
          exact absurd hsc.symm hc₀
        · rw [AList.lookup_insert_ne sid id sub m.subscriptions hid] at hs
          rcases (hiff c₀ id).mpr ⟨s, hs, hsc⟩ with ⟨ids, hcs, hin⟩
          refine ⟨ids, ?_, hin⟩
          rw [AList.lookup_insert_ne c c₀ (old ++ [sid]) m.clientSubs hc₀]
          exact hcs
  refine ⟨⟨hiff₂, unique_owner_of_iff hiff₂⟩,
    AList.keys_nodup_insert sid sub m.subscriptions hkeys, ?_⟩
  intro c₀ ids₀ hlk
  by_cases hc₀ : c₀ = c
  · subst hc₀
    rw [AList.lookup_insert_self] at hlk
    obtain rfl : old ++ [sid] = ids₀ := Option.some.inj hlk
    have holdnd : old.Nodup := by
      cases hcs : AList.lookup c₀ m.clientSubs with
      | none => rw [hold_def, hcs]; exact List.nodup_nil
      | some ids => rw [hold_def, hcs]; exact hlists c₀ ids hcs
    refine List.Nodup.append holdnd (List.nodup_singleton sid) ?_
    intro a ha hb
    exact hOldNe a ha (List.mem_singleton.mp hb)
  · rw [AList.lookup_insert_ne c c₀ (old ++ [sid]) m.clientSubs hc₀] at hlk
    exact hlists c₀ ids₀ hlk

theorem registryInv_unsubscribe (m : Manager) (c sid : String) (hInv : RegistryInv m) :
    RegistryInv (m.unsubscribe c sid).2 := by
  obtain ⟨⟨hiff, huniq⟩, hkeys, hlists⟩ := hInv
  cases hl : AList.lookup sid m.subscriptions with
  | none =>
    have hm₂ : (m.unsubscribe c sid).2 = m := by
      simp only [Manager.unsubscribe, hl]
    rw [hm₂]
    exact ⟨⟨hiff, huniq⟩, hkeys, hlists⟩
  | some sub =>
    by_cases howner : sub.clientID = c
    case neg =>
      have hm₂ : (m.unsubscribe c sid).2 = m := by
        simp only [Manager.unsubscribe, hl]
        rw [if_pos howner]
      rw [hm₂]
      exact ⟨⟨hiff, huniq⟩, hkeys, hlists⟩
    case pos =>
      rcases (hiff c sid).mpr ⟨sub, hl, howner⟩ with ⟨ids, hcs, hin⟩
      have hidsnd : ids.Nodup := hlists c ids hcs
      have holds : (AList.lookup c m.clientSubs).getD [] = ids := by rw [hcs]; rfl
      have hmem : sid ∈ (AList.lookup c m.clientSubs).getD [] := by rw [holds]; exact hin
      have hm₂ : (m.unsubscribe c sid).2 =
          { subscriptions := AList.erase sid m.subscriptions,
            clientSubs := AList.insert c (removeFirst sid ids) m.clientSubs } := by
        simp only [Manager.unsubscribe, hl]
        rw [if_neg (by simp [howner])]
        simp only [if_pos hmem, holds]
        rw [if_pos hin]
      rw [hm₂]
      have hiff₂ : ∀ c₀ id,
          listedUnder { subscriptions := AList.erase sid m.subscriptions,
                        clientSubs := AList.insert c (removeFirst sid ids) m.clientSubs } c₀ id ↔
          ownedBy { subscriptions := AList.erase sid m.subscriptions,
                    clientSubs := AList.insert c (removeFirst sid ids) m.clientSubs } c₀ id := by
        intro c₀ id
        simp only [listedUnder, ownedBy]
        by_cases hc₀ : c₀ = c
        · subst hc₀
          constructor
          · rintro ⟨ids₂, hlk, hin₂⟩
            rw [AList.lookup_insert_self] at hlk
            obtain rfl : removeFirst sid ids = ids₂ := Option.some.inj hlk
            rcases (mem_removeFirst_iff hidsnd).mp hin₂ with ⟨hin₃, hne⟩
            rcases (hiff c₀ id).mp ⟨ids, hcs, hin₃⟩ with ⟨s, hs, hsc⟩
            refine ⟨s, ?_, hsc⟩
            rw [AList.lookup_erase_ne sid id m.subscriptions hne]
            exact hs
          · rintro ⟨s, hs, hsc⟩
            have hne : id ≠ sid := by
              intro heq
              rw [heq, AList.lookup_erase_self] at hs
              cases hs
            rw [AList.lookup_erase_ne sid id m.subscriptions hne] at hs
            rcases (hiff c₀ id).mpr ⟨s, hs, hsc⟩ with ⟨ids₃, hcs₃, hin₃⟩
            have hids₃ : ids₃ = ids := by
              rw [hcs] at hcs₃; exact (Option.some.inj hcs₃).symm
            rw [hids₃] at hin₃
            exact ⟨removeFirst sid ids, AList.lookup_insert_self _ _ _,
              mem_removeFirst_of_ne hin₃ hne⟩
        · constructor
          · rintro ⟨ids₂, hlk, hin₂⟩
            rw [AList.lookup_insert_ne c c₀ (removeFirst sid ids) m.clientSubs hc₀] at hlk
            rcases (hiff c₀ id).mp ⟨ids₂, hlk, hin₂⟩ with ⟨s, hs, hsc⟩
            have hne : id ≠ sid := by
              intro heq
              rw [heq, hl] at hs
              obtain rfl : sub = s := Option.some.inj hs
              exact hc₀ (hsc.symm.trans howner)
            refine ⟨s, ?_, hsc⟩
            rw [AList.lookup_erase_ne sid id m.subscriptions hne]
            exact hs
          · rintro ⟨s, hs, hsc⟩
            have hne : id ≠ sid := by
              intro heq
              rw [heq, AList.lookup_erase_self] at hs
              cases hs
            rw [AList.lookup_erase_ne sid id m.subscriptions hne] at hs
            rcases (hiff c₀ id).mpr ⟨s, hs, hsc⟩ with ⟨ids₃, hcs₃, hin₃⟩
            refine ⟨ids₃, ?_, hin₃⟩
            rw [AList.lookup_insert_ne c c₀ (removeFirst sid ids) m.clientSubs hc₀]
            exact hcs₃
      refine ⟨⟨hiff₂, unique_owner_of_iff hiff₂⟩,
        AList.keys_nodup_erase sid m.subscriptions hkeys, ?_⟩
      intro c₀ ids₀ hlk
      by_cases hc₀ : c₀ = c
      · subst hc₀
        rw [AList.lookup_insert_self] at hlk
        obtain rfl : removeFirst sid ids = ids₀ := Option.some.inj hlk
        exact nodup_removeFirst sid hidsnd
      · rw [AList.lookup_insert_ne c c₀ (removeFirst sid ids) m.clientSubs hc₀] at hlk
        exact hlists c₀ ids₀ hlk

theorem removeIds_nil (subsMap : List (String × Subscription)) :
    removeIds subsMap [] = subsMap := rfl

theorem registryInv_unsubscribeAll (m : Manager) (c : String) (hInv : RegistryInv m) :
    RegistryInv (m.unsubscribeAll c) := by
  obtain ⟨⟨hiff, huniq⟩, hkeys, hlists⟩ := hInv
  set ids := (AList.lookup c m.clientSubs).getD [] with hids_def
  have hm₂ : m.unsubscribeAll c =
      { subscriptions := removeIds m.subscriptions ids,
        clientSubs := AList.erase c m.clientSubs } := rfl
  rw [hm₂]
  have hids_mem : ∀ id, id ∈ ids → listedUnder m c id := by
    intro id hid
    cases hcs : AList.lookup c m.clientSubs with
    | none => rw [hids_def, hcs] at hid; cases hid
    | some l =>
      rw [hids_def, hcs] at hid
      exact ⟨l, hcs, hid⟩
  have hmem_ids : ∀ id, listedUnder m c id → id ∈ ids := by
    rintro id ⟨l, hcs, hin⟩
    rw [hids_def, hcs]
    exact hin
  have hiff₂ : ∀ c₀ id,
      listedUnder { subscriptions := removeIds m.subscriptions ids,
                    clientSubs := AList.erase c m.clientSubs } c₀ id ↔
      ownedBy { subscriptions := removeIds m.subscriptions ids,
                clientSubs := AList.erase c m.clientSubs } c₀ id := by
    intro c₀ id
    simp only [listedUnder, ownedBy]
    constructor
    · rintro ⟨ids₂, hlk, hin₂⟩
      have hc₀ : c₀ ≠ c := by
        intro heq; rw [heq, AList.lookup_erase_self] at hlk; cases hlk
      rw [AList.lookup_erase_ne c c₀ m.clientSubs hc₀] at hlk
      rcases (hiff c₀ id).mp ⟨ids₂, hlk, hin₂⟩ with ⟨s, hs, hsc⟩
      have hnotin : id ∉ ids := by
        intro hid
        exact hc₀ (huniq c₀ c id ⟨ids₂, hlk, hin₂⟩ (hids_mem id hid))
      refine ⟨s, ?_, hsc⟩
      rw [lookup_removeIds, if_neg hnotin]
      exact hs
    · rintro ⟨s, hs, hsc⟩
      rw [lookup_removeIds] at hs
      by_cases hid : id ∈ ids
      · rw [if_pos hid] at hs; cases hs
      · rw [if_neg hid] at hs
        rcases (hiff c₀ id).mpr ⟨s, hs, hsc⟩ with ⟨ids₃, hcs₃, hin₃⟩
        have hc₀ : c₀ ≠ c := by
          intro heq
          exact hid (hmem_ids id ⟨ids₃, heq ▸ hcs₃, hin₃⟩)
        refine ⟨ids₃, ?_, hin₃⟩
        rw [AList.lookup_erase_ne c c₀ m.clientSubs hc₀]
        exact hcs₃
  refine ⟨⟨hiff₂, unique_owner_of_iff hiff₂⟩,
    keys_nodup_removeIds ids m.subscriptions hkeys, ?_⟩
  intro c₀ ids₀ hlk
  have hc₀ : c₀ ≠ c := by
    intro heq; rw [heq, AList.lookup_erase_self] at hlk; cases hlk
  rw [AList.lookup_erase_ne c c₀ m.clientSubs hc₀] at hlk
  exact hlists c₀ ids₀ hlk

/-! ## Operation sequences over the registry -/

/-- A registry operation, as invoked by the WebSocket handler. -/
inductive Op where
  | subscribe (clientID : String) (subType : SubscriptionType)
      (params : RawMessage) (subID : String)
  | unsubscribe (clientID subID : String)
  | unsubscribeAll (clientID : String)

/-- Applying one operation to the registry. -/
def applyOp (m : Manager) : Op → Manager
  | .subscribe c t p sid => (m.subscribe c t p sid).2
  | .unsubscribe c sid => (m.unsubscribe c sid).2
  | .unsubscribeAll c => m.unsubscribeAll c

/-- Freshness of the id drawn for a `Subscribe` call: `generateSubscriptionID`
draws 128 random bits, so a collision with a stored id is treated as not
occurring; the model makes that assumption explicit and checkable. -/
def Op.freshFor (m : Manager) : Op → Bool
  | .subscribe _ _ _ sid => (AList.lookup sid m.subscriptions).isNone
  | _ => true

/-- A run of operations in which every generated subscription id is fresh. -/
def freshRun (m : Manager) : List Op → Bool
  | [] => true
  | op :: rest => op.freshFor m && freshRun (applyOp m op) rest

/-- Applying a whole sequence of operations. -/
def runOps (m : Manager) (ops : List Op) : Manager := ops.foldl applyOp m

theorem registryInv_applyOp (m : Manager) (op : Op) (hInv : RegistryInv m)
    (hfresh : op.freshFor m = true) : RegistryInv (applyOp m op) := by
  cases op with
  | subscribe c t p sid =>
    have hnone : AList.lookup sid m.subscriptions = none := by
      simpa [Op.freshFor, Option.isNone_iff_eq_none] using hfresh
    exact registryInv_subscribe m c t p sid hInv hnone
  | unsubscribe c sid => exact registryInv_unsubscribe m c sid hInv
  | unsubscribeAll c => exact registryInv_unsubscribeAll m c hInv

theorem registryInv_runOps (m : Manager) (ops : List Op) (hInv : RegistryInv m)
    (hfresh : freshRun m ops = true) : RegistryInv (runOps m ops) := by
  induction ops generalizing m with
  | nil => exact hInv
  | cons op rest ih =>
    rw [freshRun, Bool.and_eq_true] at hfresh
    exact ih (applyOp m op) (registryInv_applyOp m op hInv hfresh.1) hfresh.2

/-! ## Claim C6 -/

/-- Claim C6: after every finite sequence of Subscribe, Unsubscribe and
UnsubscribeAll operations starting from the empty registry (each generated
subscription id being fresh, which is what the 128-bit random id generator
provides), the subscription map and the client-index map are consistent: an
id appears in a client's index list iff the subscription map holds an entry
for it owned by that client, and no id appears under two different
clients. -/
theorem C6_registry_consistent (ops : List Op)
    (hfresh : freshRun Manager.new ops = true) :
    Consistent (runOps Manager.new ops) :=
  (registryInv_runOps Manager.new ops registryInv_new hfresh).1

/-- Witness for claim C6 on a concrete operation sequence. -/
theorem C6_registry_consistent_witness :
    freshRun Manager.new
      [Op.subscribe "c1" SubTypeNewHeads RawMessage.empty "0xa",
       Op.subscribe "c2" SubTypeLogs RawMessage.empty "0xb",
       Op.unsubscribe "c1" "0xa",
       Op.unsubscribeAll "c2"] = true
    ∧ Consistent (runOps Manager.new
      [Op.subscribe "c1" SubTypeNewHeads RawMessage.empty "0xa",
       Op.subscribe "c2" SubTypeLogs RawMessage.empty "0xb",
       Op.unsubscribe "c1" "0xa",
       Op.unsubscribeAll "c2"]) :=
  ⟨rfl, C6_registry_consistent
    [Op.subscribe "c1" SubTypeNewHeads RawMessage.empty "0xa",
     Op.subscribe "c2" SubTypeLogs RawMessage.empty "0xb",
     Op.unsubscribe "c1" "0xa",
     Op.unsubscribeAll "c2"] rfl⟩

/-! ## Claim C7 -/

/-- Claim C7: `UnsubscribeAll(clientId)` removes every subscription owned by
that client (no later `GetSubscriptionsByType` result of any type is owned by
it), and it is idempotent: a second consecutive call is a no-op, a call for a
client with no index entry leaves the registry unchanged, and a call for a
client with zero listed subscriptions changes no stored subscription and no
client's visible subscription list. -/
theorem C7_unsubscribeAll_removes_and_idempotent (m : Manager) (c : String)
    (hInv : RegistryInv m) :
    (∀ t s, s ∈ (m.unsubscribeAll c).getSubscriptionsByType t → s.clientID ≠ c)
    ∧ (m.unsubscribeAll c).unsubscribeAll c = m.unsubscribeAll c
    ∧ (AList.lookup c m.clientSubs = none → m.unsubscribeAll c = m)
    ∧ ((AList.lookup c m.clientSubs).getD [] = [] →
        (m.unsubscribeAll c).subscriptions = m.subscriptions
        ∧ ∀ c₀, (m.unsubscribeAll c).getClientSubscriptions c₀ =
            m.getClientSubscriptions c₀) := by
  obtain ⟨⟨hiff, huniq⟩, hkeys, hlists⟩ := hInv
  refine ⟨?_, ?_, ?_, ?_⟩
  · intro t s hs hc
    rw [Manager.unsubscribeAll, Manager.getSubscriptionsByType] at hs
    rcases List.mem_filter.mp hs with ⟨hmem, _⟩
    rcases List.mem_map.mp hmem with ⟨⟨k, s₂⟩, hpair, hsnd⟩
    have hs₂ : s₂ = s := hsnd
    subst hs₂
    have hlkup : AList.lookup k
        (removeIds m.subscriptions ((AList.lookup c m.clientSubs).getD [])) = some s₂ :=
      AList.lookup_of_mem_of_nodup hpair
        (keys_nodup_removeIds _ m.subscriptions hkeys)
    rw [lookup_removeIds] at hlkup
    by_cases hk : k ∈ (AList.lookup c m.clientSubs).getD []
    · rw [if_pos hk] at hlkup; cases hlkup
    · rw [if_neg hk] at hlkup
      rcases (hiff c k).mpr ⟨s₂, hlkup, hc⟩ with ⟨l, hcs, hin⟩
      apply hk
      rw [hcs]
      exact hin
  · have hlook : AList.lookup c (AList.erase c m.clientSubs) = none :=
      AList.lookup_erase_self c m.clientSubs
    simp only [Manager.unsubscribeAll, hlook, Option.getD_none, removeIds_nil,
      AList.erase_erase]
  · intro hnone
    simp only [Manager.unsubscribeAll, hnone, Option.getD_none, removeIds_nil]
    rw [AList.erase_of_lookup_none c m.clientSubs hnone]
  · intro hempty
    constructor
    · simp only [Manager.unsubscribeAll, hempty, removeIds_nil]
    · intro c₀
      by_cases hc₀ : c₀ = c
      · subst hc₀
        simp only [Manager.getClientSubscriptions, Manager.unsubscribeAll,
          AList.lookup_erase_self, Option.getD_none]
        exact hempty.symm
      · simp only [Manager.getClientSubscriptions, Manager.unsubscribeAll,
          AList.lookup_erase_ne c c₀ m.clientSubs hc₀]

/-- Witness for claim C7 at a concrete reachable registry state. -/
theorem C7_unsubscribeAll_witness :
    RegistryInv (runOps Manager.new
      [Op.subscribe "c1" SubTypeLogs RawMessage.empty "0xa",
       Op.subscribe "c2" SubTypeNewHeads RawMessage.empty "0xb"])
    ∧ ((runOps Manager.new
        [Op.subscribe "c1" SubTypeLogs RawMessage.empty "0xa",
         Op.subscribe "c2" SubTypeNewHeads RawMessage.empty "0xb"]).unsubscribeAll
          "c1").unsubscribeAll "c1" =
      (runOps Manager.new
        [Op.subscribe "c1" SubTypeLogs RawMessage.empty "0xa",
         Op.subscribe "c2" SubTypeNewHeads RawMessage.empty "0xb"]).unsubscribeAll "c1" := by
  have hInv : RegistryInv (runOps Manager.new
      [Op.subscribe "c1" SubTypeLogs RawMessage.empty "0xa",
       Op.subscribe "c2" SubTypeNewHeads RawMessage.empty "0xb"]) :=
    registryInv_runOps Manager.new _ registryInv_new rfl
  exact ⟨hInv, (C7_unsubscribeAll_removes_and_idempotent _ "c1" hInv).2.1⟩

/-! ## Connection hub (internal/broadcaster/broadcaster.go) -/

/-- A notification payload: the `interface` value handed to
`CreateNotification` by the broadcast methods. -/
inductive Payload where
  | boolPayload (b : Bool)
  | syncObj (s : SyncStatus)
  | header (h : FullBlockHeader)
  | log (l : Log)
  | gasPrice (g : GasPriceInfo)
  | receipts (r : BlockReceipts)
  deriving DecidableEq, Repr

/-- The `SubscriptionNotification` envelope with its `NotificationParams`,
flattened. In Go the envelope is marshalled to bytes; the model keeps the
structured value as the message. -/
structure SubscriptionNotification where
  jsonrpc : String
  method : String
  subscription : String
  result : Payload
  deriving DecidableEq, Repr

/-- The `subscription.CreateNotification` function. `json.Marshal` cannot
fail on any of the payload types above, so the model is total. -/
def createNotification (subID : String) (result : Payload) : SubscriptionNotification :=
  { jsonrpc := "2.0", method := "eth_subscription",
    subscription := subID, result := result }

/-- The `broadcaster.Client` struct: id, connection metadata, the bounded
outbound channel (`send`, oldest message first) and the message counters. -/
structure Client where
  id : String
  ip : String := ""
  userAgent : String := ""
  send : List SubscriptionNotification := []
  msgSent : Int := 0
  msgRecv : Int := 0
  deriving DecidableEq, Repr

/-- The capacity of a client's outbound channel: `make(chan []byte, 512)`. -/
def sendCap : Nat := 512

/-- The `broadcaster.Broadcaster` struct: the live-client map and the
subscription manager (register/unregister channels and totals are the
control loop's plumbing and are not needed by the claims). -/
structure Broadcaster where
  clients : List (String × Client) := []
  subManager : Manager := {}

/-- The `Broadcaster.SendToClient` method: look up the session under the
read lock; return false for an unknown id; otherwise attempt the
non-blocking channel send (`select` with a `default` branch): with room the
message is enqueued, the sent counter incremented and true returned; with a
full channel the default branch returns false and nothing changes. -/
def Broadcaster.sendToClient (b : Broadcaster) (clientID : String)
    (data : SubscriptionNotification) : Bool × Broadcaster :=
  match AList.lookup clientID b.clients with
  | none => (false, b)
  | some cl =>
    if cl.send.length < sendCap then
      let cl₂ : Client :=
        { cl with send := cl.send ++ [data], msgSent := cl.msgSent + 1 }
      (true, { b with clients := AList.insert clientID cl₂ b.clients })
    else (false, b)

/-! ## Claim C4 -/

/-- Claim C4: for a registered client, `SendToClient` is a non-blocking
bounded enqueue: with a full queue it returns false and leaves the whole hub
state (queue and counters included) unchanged; with room it returns true,
appends the message to the queue and increments the sent-message counter;
and whenever it returns false, nothing was changed — so the counter is
incremented only on successful enqueue. -/
theorem C4_sendToClient_bounded_nonblocking (b : Broadcaster) (clientID : String)
    (data : SubscriptionNotification) (cl : Client)
    (hcl : AList.lookup clientID b.clients = some cl) :
    (sendCap ≤ cl.send.length → b.sendToClient clientID data = (false, b))
    ∧ (cl.send.length < sendCap →
        (b.sendToClient clientID data).1 = true
        ∧ AList.lookup clientID (b.sendToClient clientID data).2.clients =
            some { cl with send := cl.send ++ [data], msgSent := cl.msgSent + 1 })
    ∧ ((b.sendToClient clientID data).1 = false →
        (b.sendToClient clientID data).2 = b) := by
  refine ⟨?_, ?_, ?_⟩
  · intro hfull
    simp only [Broadcaster.sendToClient, hcl]
    rw [if_neg (Nat.not_lt.mpr hfull)]
  · intro hroom
    simp only [Broadcaster.sendToClient, hcl]
    rw [if_pos hroom]
    exact ⟨rfl, AList.lookup_insert_self _ _ _⟩
  · intro hfalse
    simp only [Broadcaster.sendToClient, hcl] at hfalse ⊢
    by_cases hroom : cl.send.length < sendCap
    · rw [if_pos hroom] at hfalse
      cases hfalse
    · rw [if_neg hroom]

/-- Witness for claim C4 on a concrete hub with room in the queue. -/
theorem C4_sendToClient_witness :
    AList.lookup "c1"
      (Broadcaster.clients { clients := [("c1", { id := "c1" })] }) =
        some { id := "c1" }
    ∧ ({ id := "c1" } : Client).send.length < sendCap
    ∧ (Broadcaster.sendToClient { clients := [("c1", { id := "c1" })] } "c1"
        (createNotification "0xs" (Payload.boolPayload false))).1 = true
    ∧ AList.lookup "c1"
        (Broadcaster.sendToClient { clients := [("c1", { id := "c1" })] } "c1"
          (createNotification "0xs" (Payload.boolPayload false))).2.clients =
        some { id := "c1",
               send := [createNotification "0xs" (Payload.boolPayload false)],
               msgSent := 1 } := by
  have h := (C4_sendToClient_bounded_nonblocking
    { clients := [("c1", { id := "c1" })] } "c1"
    (createNotification "0xs" (Payload.boolPayload false))
    { id := "c1" } rfl).2.1 (by decide)
  exact ⟨rfl, by decide, h.1, h.2⟩

/-! ## Claim C10 -/

/-- Claim C10: `SendToClient` for a client id absent from the live-client map
returns false and returns the hub unchanged, so no registered client's
outbound queue or sent-message counter changes. -/
theorem C10_sendToClient_unknown_client (b : Broadcaster) (clientID : String)
    (data : SubscriptionNotification)
    (hnone : AList.lookup clientID b.clients = none) :
    b.sendToClient clientID data = (false, b)
    ∧ ∀ c₀, AList.lookup c₀ (b.sendToClient clientID data).2.clients =
        AList.lookup c₀ b.clients := by
  have h : b.sendToClient clientID data = (false, b) := by
    simp only [Broadcaster.sendToClient, hnone]
  exact ⟨h, fun c₀ => by rw [h]⟩

/-- Witness for claim C10 on a concrete hub without the client. -/
theorem C10_sendToClient_unknown_witness :
    AList.lookup "ghost"
      (Broadcaster.clients { clients := [("c1", { id := "c1" })] }) = none
    ∧ Broadcaster.sendToClient { clients := [("c1", { id := "c1" })] } "ghost"
        (createNotification "0xs" (Payload.boolPayload false)) =
      (false, { clients := [("c1", { id := "c1" })] }) := by
  refine ⟨rfl, ?_⟩
  exact (C10_sendToClient_unknown_client
    { clients := [("c1", { id := "c1" })] } "ghost"
    (createNotification "0xs" (Payload.boolPayload false)) rfl).1

/-! ## Flexible log-filter JSON parsing (`LogFilter.UnmarshalJSON`) -/

/-- Go `json.Unmarshal` of a JSON value into a `string` variable: succeeds
for a JSON string, and for JSON null as a no-op that leaves the zero value
`""`; any other shape fails. -/
def jsonToString : Jsonv → Option String
  | .str s => some s
  | .null => some ""
  | _ => none

/-- Go `json.Unmarshal` of a JSON value into a `[]string` variable: null is a
no-op leaving the nil (empty) slice; an array needs every element to decode
into a string slot; any other shape fails. -/
def jsonToStringArray : Jsonv → Option (List String)
  | .null => some []
  | .arr elems => elems.mapM jsonToString
  | _ => none

/-- The object field stored under a JSON key (the `address` / `topics` struct
tags of `logFilterRaw`; the decoded object holds one value per key). -/
def jsonField (fields : List (String × Jsonv)) (key : String) : Option Jsonv :=
  AList.lookup key fields

/-- The `logFilterRaw` struct: the raw-message fields of the filter object.
An absent `address` field is the nil raw message; an absent or null `topics`
field is the nil slice. -/
structure LogFilterRaw where
  address : Option Jsonv := none
  topics : List Jsonv := []

/-- Go `json.Unmarshal` of the filter bytes into `logFilterRaw`: the data
must be a JSON object (null being a successful no-op); a present `topics`
field must be an array or null (`[]json.RawMessage`); any other shape is an
unmarshal error, which `LogFilter.UnmarshalJSON` returns before touching the
filter. -/
def unmarshalLogFilterRaw : Jsonv → Option LogFilterRaw
  | .null => some {}
  | .obj fields =>
    let addr := jsonField fields "address"
    match jsonField fields "topics" with
    | none => some { address := addr }
    | some .null => some { address := addr }
    | some (.arr elems) => some { address := addr, topics := elems }
    | some _ => none
  | _ => none

/-- The address branch of `LogFilter.UnmarshalJSON`: when the raw field is
present (non-zero length), first try a single string, then an array of
strings, normalizing each; when both attempts fail the field stays nil. -/
def parseAddressField : Option Jsonv → List String
  | none => []
  | some raw =>
    match jsonToString raw with
    | some s => [normalizeAddress s]
    | none =>
      match jsonToStringArray raw with
      | some addrs => addrs.map normalizeAddress
      | none => []

/-- The per-position topic branch of `LogFilter.UnmarshalJSON`: a null
element is the wildcard; otherwise try a single string, then an array of
strings (OR matching), normalizing each; on failure the position stays nil
(wildcard). -/
def parseTopicElem (raw : Jsonv) : List String :=
  match raw with
  | .null => []
  | _ =>
    match jsonToString raw with
    | some s => [normalizeTopic s]
    | none =>
      match jsonToStringArray raw with
      | some topics => topics.map normalizeTopic
      | none => []

/-- The `LogFilter.UnmarshalJSON` method over a decoded JSON value: `none`
is the unmarshal error path (the filter variable is untouched). -/
def logFilterOfJson (v : Jsonv) : Option LogFilter :=
  match unmarshalLogFilterRaw v with
  | none => none
  | some raw =>
    some { address := parseAddressField raw.address,
           topics := if raw.topics.isEmpty then [] else raw.topics.map parseTopicElem }

/-- The effective filter computed by `BroadcastLog`: `var filter LogFilter`
followed by `json.Unmarshal(sub.Params, &filter)` whose error is discarded.
Empty params skip the unmarshal; malformed bytes fail the syntax check; a
failed unmarshal leaves the zero-value filter. -/
def unmarshalLogFilter : RawMessage → LogFilter
  | .empty => {}
  | .malformed _ => {}
  | .json v => (logFilterOfJson v).getD {}

/-! ## Broadcast fan-out (internal/broadcaster/broadcaster.go) -/

/-- The `Broadcaster.BroadcastLog` method: for each logs subscription the
stored params give the effective filter (parse errors ignored), the filter is
applied through a non-nil pointer, and each matching subscriber is sent the
log notification. -/
def Broadcaster.broadcastLog (b : Broadcaster) (logEntry : Log) : Broadcaster :=
  let subs := b.subManager.getSubscriptionsByType SubTypeLogs
  if subs.length = 0 then b
  else
    subs.foldl (fun acc sub =>
      let filter := unmarshalLogFilter sub.params
      if !(matchesLogFilter logEntry (some filter)) then acc
      else (acc.sendToClient sub.clientID
        (createNotification sub.id (Payload.log logEntry))).2) b

/-- The per-subscription notifications constructed by `BroadcastSyncing`:
the result payload is the status object when `Syncing`, the boolean `false`
otherwise. -/
def Broadcaster.syncingNotifications (b : Broadcaster) (syncStatus : SyncStatus) :
    List (String × SubscriptionNotification) :=
  let result : Payload :=
    if syncStatus.syncing then .syncObj syncStatus else .boolPayload false
  (b.subManager.getSubscriptionsByType SubTypeSyncing).map
    (fun sub => (sub.clientID, createNotification sub.id result))

/-- The `Broadcaster.BroadcastSyncing` method. -/
def Broadcaster.broadcastSyncing (b : Broadcaster) (syncStatus : SyncStatus) : Broadcaster :=
  let subs := b.subManager.getSubscriptionsByType SubTypeSyncing
  if subs.length = 0 then b
  else
    let result : Payload :=
      if syncStatus.syncing then .syncObj syncStatus else .boolPayload false
    subs.foldl (fun acc sub =>
      (acc.sendToClient sub.clientID (createNotification sub.id result)).2) b

/-! ## Claim C9 -/

/-- Claim C9: `BroadcastSyncing` sends every Syncing subscriber a
notification whose result payload is the boolean `false` when the status is
not syncing and the status object itself when it is: every subscriber has
its notification among the constructed ones, every constructed notification
carries exactly that payload, and the broadcast is precisely the sequence of
`SendToClient` calls on those notifications. -/
theorem C9_broadcastSyncing_payload (b : Broadcaster) (syncStatus : SyncStatus) :
    (∀ sub, sub ∈ b.subManager.getSubscriptionsByType SubTypeSyncing →
      (sub.clientID, createNotification sub.id
        (if syncStatus.syncing then Payload.syncObj syncStatus
         else Payload.boolPayload false)) ∈ b.syncingNotifications syncStatus)
    ∧ (∀ p, p ∈ b.syncingNotifications syncStatus →
        p.2.result = (if syncStatus.syncing then Payload.syncObj syncStatus
          else Payload.boolPayload false)
        ∧ p.2.method = "eth_subscription" ∧ p.2.jsonrpc = "2.0")
    ∧ b.broadcastSyncing syncStatus =
        (b.syncingNotifications syncStatus).foldl
          (fun acc p => (acc.sendToClient p.1 p.2).2) b := by
  refine ⟨?_, ?_, ?_⟩
  · intro sub hsub
    exact List.mem_map.mpr ⟨sub, hsub, rfl⟩
  · intro p hp
    rcases List.mem_map.mp hp with ⟨sub, _, hsub₂⟩
    rw [← hsub₂]
    exact ⟨rfl, rfl, rfl⟩
  · rw [Broadcaster.broadcastSyncing, Broadcaster.syncingNotifications]
    cases hsubs : b.subManager.getSubscriptionsByType SubTypeSyncing with
    | nil => simp
    | cons s rest =>
      rw [if_neg (by simp)]
      rw [List.foldl_map]

/-- Witness for claim C9 on a concrete hub with one syncing subscriber. -/
theorem C9_broadcastSyncing_witness :
    (let sub : Subscription :=
      { id := "0xs1", type := SubTypeSyncing, params := RawMessage.empty,
        clientID := "c1" }
     let b : Broadcaster :=
      { clients := [("c1", { id := "c1" })],
        subManager := { subscriptions := [("0xs1", sub)],
                        clientSubs := [("c1", ["0xs1"])] } }
     (sub.clientID, createNotification sub.id (Payload.boolPayload false)) ∈
        b.syncingNotifications { syncing := false }
     ∧ ∀ p, p ∈ b.syncingNotifications { syncing := false } →
         p.2.result = Payload.boolPayload false
         ∧ p.2.method = "eth_subscription" ∧ p.2.jsonrpc = "2.0") := by
  intro sub b
  constructor
  · have h := (C9_broadcastSyncing_payload b { syncing := false }).1 sub
      (by rw [show b.subManager.getSubscriptionsByType SubTypeSyncing = [sub] from rfl]
          exact List.mem_singleton.mpr rfl)
    simpa using h
  · intro p hp
    have h := (C9_broadcastSyncing_payload b { syncing := false }).2.1 p hp
    simpa using h

/-! ## Claim C5 (corrected) -/

/-- Counterexample to claim C5 as stated: a logs subscription whose filter
params are the malformed bytes `not-json` gets the zero-value filter, which
matches an arbitrary log, and broadcasting that log delivers a notification
to the subscribing client (its queue grows and its counter increments) —
not nothing. -/
theorem C5_counterexample_malformed_filter_delivers :
    matchesLogFilter { address := "0xaaa" }
      (some (unmarshalLogFilter (RawMessage.malformed "not-json"))) = true
    ∧ AList.lookup "c1"
        (Broadcaster.broadcastLog
          { clients := [("c1", { id := "c1" })],
            subManager :=
              { subscriptions := [("0xs1",
                  { id := "0xs1", type := SubTypeLogs,
                    params := RawMessage.malformed "not-json", clientID := "c1" })],
                clientSubs := [("c1", ["0xs1"])] } }
          { address := "0xaaa" }).clients =
      some { id := "c1",
             send := [createNotification "0xs1" (Payload.log { address := "0xaaa" })],
             msgSent := 1 } := by
  exact ⟨rfl, rfl⟩

/-- Claim C5 (amended): `Subscribe` accepts every client id, subscription
type and raw filter params value — malformed filter JSON included — and
returns the generated subscription id with a nil error and stores the
subscription; but a logs subscription whose filter params are malformed has
the zero-value (empty) filter as its effective filter, which matches every
log, so broadcasting delivers to that subscription rather than nothing. -/
theorem C5_subscribe_never_fails_malformed_matches_every_log
    (m : Manager) (clientID : String) (subType : SubscriptionType)
    (params : RawMessage) (subID : String) (bytes : String) (logEntry : Log) :
    (m.subscribe clientID subType params subID).1 = (subID, none)
    ∧ AList.lookup subID (m.subscribe clientID subType params subID).2.subscriptions =
        some { id := subID, type := subType, params := params, clientID := clientID }
    ∧ unmarshalLogFilter (RawMessage.malformed bytes) = {}
    ∧ matchesLogFilter logEntry (some (unmarshalLogFilter (RawMessage.malformed bytes))) =
        true := by
  refine ⟨rfl, AList.lookup_insert_self _ _ _, rfl, ?_⟩
  simp [unmarshalLogFilter, matchesLogFilter, matchTopics]

/-! ## JSON-RPC error codes (internal/rpc/types.go) -/

def ErrCodeParseError : Int := -32700
def ErrCodeInvalidRequest : Int := -32600
def ErrCodeMethodNotFound : Int := -32601
def ErrCodeInvalidParams : Int := -32602
def ErrCodeInternalError : Int := -32603

/-! ## Claim C3 (subscription-type dispatch of `handleSubscribe`) -/

/-- Modelled from the spec: the current hlnode-websocket
`handleSubscribe` type-dispatch switch is not under src (the file at
`internal/handlers/websocket.go` is the older pre-rename `hlnode-proxy`
variant, while the handler tests, the broadcaster and the main program of
the current module are present). Per the spec, the supported subscription
type strings are `newHeads`, `logs`, `gasPrice`, `blockReceipts` and
`syncing`; anything else is rejected with JSON-RPC error -32602 (invalid
params). -/
def handleSubscribeDispatch (subType : String) : Except Int SubscriptionType :=
  if subType = "newHeads" then .ok SubTypeNewHeads
  else if subType = "logs" then .ok SubTypeLogs
  else if subType = "gasPrice" then .ok SubTypeGasPrice
  else if subType = "blockReceipts" then .ok SubTypeBlockReceipts
  else if subType = "syncing" then .ok SubTypeSyncing
  else .error ErrCodeInvalidParams

/-- Modelled from the spec: on a supported type, `handleSubscribe` calls
`Subscribe(client.ID, subscriptionType, filterParams)` and answers with the
new subscription id; on an unsupported type it answers with the error
code. -/
def handleSubscribe (m : Manager) (clientID subType : String)
    (filterParams : RawMessage) (newSubID : String) : Except Int (String × Manager) :=
  match handleSubscribeDispatch subType with
  | .error code => .error code
  | .ok st =>
    .ok ((m.subscribe clientID st filterParams newSubID).1.1,
         (m.subscribe clientID st filterParams newSubID).2)

/-- Claim C3: each of the five supported type strings is accepted — a
subscription is created and its id returned — and every other type string is
rejected with JSON-RPC error code -32602. -/
theorem C3_supported_subscription_types (m : Manager) (clientID subType : String)
    (filterParams : RawMessage) (newSubID : String) :
    (subType ∈ ["newHeads", "logs", "gasPrice", "blockReceipts", "syncing"] →
      ∃ m₂, handleSubscribe m clientID subType filterParams newSubID =
          Except.ok (newSubID, m₂)
        ∧ AList.lookup newSubID m₂.subscriptions =
            some { id := newSubID, type := subType, params := filterParams,
                   clientID := clientID })
    ∧ (subType ∉ ["newHeads", "logs", "gasPrice", "blockReceipts", "syncing"] →
        handleSubscribe m clientID subType filterParams newSubID =
          Except.error ErrCodeInvalidParams
        ∧ ErrCodeInvalidParams = -32602) := by
  constructor
  · intro hmem
    simp only [List.mem_cons, List.not_mem_nil, or_false] at hmem
    rcases hmem with rfl | rfl | rfl | rfl | rfl
    all_goals exact ⟨_, rfl, AList.lookup_insert_self _ _ _⟩
  · intro hnotin
    simp only [List.mem_cons, List.not_mem_nil, or_false, not_or] at hnotin
    obtain ⟨h1, h2, h3, h4, h5⟩ := hnotin
    refine ⟨?_, rfl⟩
    simp only [handleSubscribe, handleSubscribeDispatch, h1, h2, h3, h4, h5,
      if_false]

/-- Witness for claim C3 at the type strings `gasPrice` and `bogus`. -/
theorem C3_supported_subscription_types_witness :
    ("gasPrice" : String) ∈ ["newHeads", "logs", "gasPrice", "blockReceipts", "syncing"]
    ∧ (∃ m₂, handleSubscribe Manager.new "c1" "gasPrice" RawMessage.empty "0xg" =
          Except.ok ("0xg", m₂)
        ∧ AList.lookup "0xg" m₂.subscriptions =
            some { id := "0xg", type := "gasPrice", params := RawMessage.empty,
                   clientID := "c1" })
    ∧ ("bogus" : String) ∉ ["newHeads", "logs", "gasPrice", "blockReceipts", "syncing"]
    ∧ handleSubscribe Manager.new "c1" "bogus" RawMessage.empty "0xg" =
        Except.error ErrCodeInvalidParams
    ∧ ErrCodeInvalidParams = -32602 := by
  refine ⟨by decide, ?_, by decide, ?_, rfl⟩
  · exact (C3_supported_subscription_types Manager.new "c1" "gasPrice"
      RawMessage.empty "0xg").1 (by decide)
  · exact ((C3_supported_subscription_types Manager.new "c1" "bogus"
      RawMessage.empty "0xg").2 (by decide)).1

/-! ## The sync-status poll loop (cmd/server/main.go, pollSyncing) -/

/-- The tick interval of `pollSyncing` (`time.NewTicker(1 * time.Second)`),
in seconds — its own schedule, independent of the block poll interval. -/
def syncCheckIntervalSeconds : Nat := 1

/-- The per-check upstream timeout of `pollSyncing`
(`queryTimeout = 2 * time.Second`), in seconds. -/
def syncQueryTimeoutSeconds : Nat := 2

/-- The upstream responses observed by one `pollSyncing` tick: the block
number query and the full-block query, both run under the per-check timeout
context (a timeout surfaces as an error). -/
structure SyncUpstream where
  blockNumber : Except Unit String
  fullBlock : Except Unit (Option FullBlockHeader)

/-- The numeric value of a hex digit character. -/
def hexDigitValue (ch : Char) : Nat :=
  if ch.isDigit then ch.toNat - 48
  else if 'a' ≤ ch then ch.toNat - 87
  else ch.toNat - 55

/-- Go `fmt.Sscanf(s, "0x%x", &v)`: the literal prefix `0x` followed by at
least one hex digit; the maximal hex-digit run is read. -/
def parseHexTimestamp (s : String) : Option Nat :=
  if s.startsWith "0x" then
    let digits := (s.drop 2).takeWhile (fun ch =>
      ch.isDigit || ("abcdefABCDEF".toList.contains ch))
    if digits.isEmpty then none
    else some (digits.foldl (fun acc ch => 16 * acc + hexDigitValue ch) 0)
  else none

/-- The observable outcome of one `pollSyncing` tick. -/
inductive SyncTick where
  | skipped
  | broadcast (st : SyncStatus)
  deriving DecidableEq, Repr

/-- The timestamp branch of `pollSyncing`: a timestamp that fails to parse
or is zero reports out of sync; otherwise the node is out of sync exactly
when the block age (wall clock minus block timestamp) exceeds the configured
`SYNC_THRESHOLD`. -/
def syncStatusOfBlock (fullBlock : FullBlockHeader) (now syncThreshold : Int) :
    SyncStatus :=
  match parseHexTimestamp fullBlock.timestamp with
  | none => { syncing := true }
  | some ts =>
    if ts = 0 then { syncing := true }
    else
      let blockAge := now - (ts : Int)
      let isSyncing := decide (blockAge > syncThreshold)
      { syncing := isSyncing, currentBlock := fullBlock.number }

/-- The status computed by one querying `pollSyncing` tick: an errored or
timed-out block-number query, an errored block query and a nil block each
report out of sync; otherwise the timestamp branch decides. -/
def syncStatusOfCheck (up : SyncUpstream) (now syncThreshold : Int) : SyncStatus :=
  match up.blockNumber with
  | .error _ => { syncing := true }
  | .ok _ =>
    match up.fullBlock with
    | .error _ => { syncing := true }
    | .ok none => { syncing := true }
    | .ok (some fullBlock) => syncStatusOfBlock fullBlock now syncThreshold

/-- One `pollSyncing` tick body: with no Syncing subscriber the tick skips
without performing any upstream query; otherwise the computed status is
broadcast. -/
def pollSyncingTick (syncSubCount : Nat) (up : SyncUpstream)
    (now syncThreshold : Int) : SyncTick :=
  if syncSubCount = 0 then .skipped
  else .broadcast (syncStatusOfCheck up now syncThreshold)

/-- One `pollSyncing` tick on a hub: the subscriber count is the length of
`GetSubscriptionsByType(Syncing)` and a computed status goes to
`BroadcastSyncing`. -/
def Broadcaster.pollSyncingStep (b : Broadcaster) (up : SyncUpstream)
    (now syncThreshold : Int) : Broadcaster :=
  match pollSyncingTick (b.subManager.getSubscriptionsByType SubTypeSyncing).length
      up now syncThreshold with
  | .skipped => b
  | .broadcast st => b.broadcastSyncing st

/-! ## Claim C8 -/

/-- Claim C8: the sync-status check (its own loop, with its own positive
per-check timeout) queries upstream only when at least one Syncing
subscriber exists, and reports the node out of sync exactly when the
upstream query errors or times out, the block is unavailable, the block
timestamp fails to parse (or is zero), or the block is older than the
configured age threshold against wall-clock time. -/
theorem syncStatusOfBlock_syncing_iff (fb : FullBlockHeader) (now threshold : Int) :
    (syncStatusOfBlock fb now threshold).syncing = true ↔
      (parseHexTimestamp fb.timestamp = none
       ∨ parseHexTimestamp fb.timestamp = some 0
       ∨ ∃ ts, parseHexTimestamp fb.timestamp = some ts
           ∧ now - (ts : Int) > threshold) := by
  rw [syncStatusOfBlock]
  cases hts : parseHexTimestamp fb.timestamp with
  | none => exact iff_of_true rfl (Or.inl rfl)
  | some ts =>
    cases ts with
    | zero => exact iff_of_true rfl (Or.inr (Or.inl rfl))
    | succ n =>
      constructor
      · intro hdec
        exact Or.inr (Or.inr ⟨n + 1, rfl, of_decide_eq_true hdec⟩)
      · intro h
        rcases h with hp | hp | ⟨ts₂, hts₂, hgt⟩
        · cases hp
        · exact absurd (Option.some.inj hp) (Nat.succ_ne_zero n)
        · obtain rfl : n + 1 = ts₂ := Option.some.inj hts₂
          exact decide_eq_true hgt

/-- Claim C8: the sync-status check (its own loop, with its own positive
per-check timeout) queries upstream only when at least one Syncing
subscriber exists, and reports the node out of sync exactly when the
upstream query errors or times out, the block is unavailable, the block
timestamp fails to parse (or is zero), or the block is older than the
configured age threshold against wall-clock time. -/
theorem C8_sync_check_loop (subCount : Nat) (up : SyncUpstream) (now threshold : Int) :
    (subCount = 0 → pollSyncingTick subCount up now threshold = SyncTick.skipped)
    ∧ (0 < subCount →
        ∃ st, pollSyncingTick subCount up now threshold = SyncTick.broadcast st
          ∧ (st.syncing = true ↔
              up.blockNumber = Except.error ()
              ∨ up.fullBlock = Except.error ()
              ∨ up.fullBlock = Except.ok none
              ∨ ∃ fb, up.fullBlock = Except.ok (some fb)
                  ∧ (parseHexTimestamp fb.timestamp = none
                     ∨ parseHexTimestamp fb.timestamp = some 0
                     ∨ ∃ ts, parseHexTimestamp fb.timestamp = some ts
                         ∧ now - (ts : Int) > threshold)))
    ∧ 0 < syncQueryTimeoutSeconds := by
  refine ⟨?_, ?_, by decide⟩
  · intro h0
    rw [pollSyncingTick, if_pos h0]
  · intro hpos
    rw [pollSyncingTick, if_neg (Nat.pos_iff_ne_zero.mp hpos)]
    refine ⟨syncStatusOfCheck up now threshold, rfl, ?_⟩
    rw [syncStatusOfCheck]
    cases hbn : up.blockNumber with
    | error e =>
      cases e
      exact iff_of_true rfl (Or.inl rfl)
    | ok bn =>
      cases hfb : up.fullBlock with
      | error e =>
        cases e
        exact iff_of_true rfl (Or.inr (Or.inl rfl))
      | ok ofb =>
        cases ofb with
        | none =>
          exact iff_of_true rfl (Or.inr (Or.inr (Or.inl rfl)))
        | some fb =>
          show (syncStatusOfBlock fb now threshold).syncing = true ↔ _
          rw [syncStatusOfBlock_syncing_iff fb now threshold]
          constructor
          · intro hp
            exact Or.inr (Or.inr (Or.inr ⟨fb, rfl, hp⟩))
          · intro h
            rcases h with hc | hc | hc | ⟨fb₂, hfb₂, hp⟩
            · cases hc
            · cases hc
            · cases hc
            · obtain rfl : fb = fb₂ := Option.some.inj (Except.ok.inj hfb₂)
              exact hp

/-- Witness for claim C8: a tick with no subscriber skips, and a tick with a
subscriber whose block-number query fails reports out of sync. -/
theorem C8_sync_check_loop_witness :
    pollSyncingTick 0 ⟨Except.error (), Except.ok none⟩ 100 15 = SyncTick.skipped
    ∧ (0 : Nat) < 1
    ∧ ∃ st, pollSyncingTick 1 ⟨Except.error (), Except.ok none⟩ 100 15 =
        SyncTick.broadcast st ∧ st.syncing = true := by
  refine ⟨(C8_sync_check_loop 0 ⟨Except.error (), Except.ok none⟩ 100 15).1 rfl,
    by decide, ?_⟩
  rcases (C8_sync_check_loop 1 ⟨Except.error (), Except.ok none⟩ 100 15).2.1
    (by decide) with ⟨st, hst, hiff⟩
  exact ⟨st, hst, hiff.mpr (Or.inl rfl)⟩

end Hlnode

